import Mathlib

/-!
Verification development for the capstone text adventure
(35_capstone_awesome_text_adventure.c).

Shallow embedding conventions:
  * C strings are `List Char`; a line of the map file is a `Line`.
  * A `Room *` pointer is modelled as the index of the room inside the
    `all_rooms` array of the game state (`Nat`); a possibly-NULL pointer
    is `Option Nat`.
  * `sscanf` with the two concrete formats used by the program
    (`"room %d \"%[^\"]\""` and `"link %d %s %d"`) is embedded by
    `sscanfRoom` and `sscanfLink` following C99 `sscanf` semantics:
    a whitespace directive skips any run of whitespace, `%d` skips
    whitespace and reads an optionally signed nonempty digit string,
    `%s` skips whitespace and reads a nonempty run of non-whitespace,
    `%[^"]` reads a nonempty run of characters other than `"`, and a
    literal character must match exactly.  The result is `some` exactly
    when the C call returns the full count of conversions.
  * Fallible C functions returning 0/NULL are embedded with `Option`.
-/

-- ## Characters and character classes

def spaceChar : Char := Char.ofNat 32

def newlineChar : Char := Char.ofNat 10

def quoteChar : Char := Char.ofNat 34

def minusChar : Char := Char.ofNat 45

def plusChar : Char := Char.ofNat 43

def apoChar : Char := Char.ofNat 39

/-- C `isspace` in the default locale: space, \t, \n, \v, \f, \r. -/
def isSpaceByte (c : Char) : Bool := c.toNat == 32 || (9 ≤ c.toNat && c.toNat ≤ 13)

def isDigitByte (c : Char) : Bool := 48 ≤ c.toNat && c.toNat ≤ 57

/-- C `tolower` in the default locale (ASCII). -/
def toLowerChar (c : Char) : Char :=
  if 65 ≤ c.toNat ∧ c.toNat ≤ 90 then Char.ofNat (c.toNat + 32) else c

abbrev Line := List Char

-- ## The fragment of sscanf used by the program

def digitsVal (ds : List Char) : Nat := ds.foldl (fun a c => a * 10 + (c.toNat - 48)) 0

/-- One `%d` conversion: skip whitespace, optional sign, nonempty digit run.
Returns the value and the rest of the input. -/
def scanInt (cs : List Char) : Option (Int × List Char) :=
  let cs1 := cs.dropWhile isSpaceByte
  match cs1 with
  | [] => none
  | c :: rest =>
    if c = minusChar then
      let ds := rest.takeWhile isDigitByte
      if ds = [] then none else some (-(digitsVal ds : Int), rest.dropWhile isDigitByte)
    else if c = plusChar then
      let ds := rest.takeWhile isDigitByte
      if ds = [] then none else some ((digitsVal ds : Int), rest.dropWhile isDigitByte)
    else
      let ds := cs1.takeWhile isDigitByte
      if ds = [] then none else some ((digitsVal ds : Int), cs1.dropWhile isDigitByte)

/-- One `%s` conversion: skip whitespace, nonempty run of non-whitespace. -/
def scanToken (cs : List Char) : Option (List Char × List Char) :=
  let cs1 := cs.dropWhile isSpaceByte
  let tok := cs1.takeWhile (fun c => !isSpaceByte c)
  if tok = [] then none else some (tok, cs1.dropWhile (fun c => !isSpaceByte c))

/-- Literal characters of the format string: each must match exactly. -/
def dropLit : List Char → List Char → Option (List Char)
  | [], cs => some cs
  | _ :: _, [] => none
  | l :: ls, c :: cs => if c = l then dropLit ls cs else none

/-- `sscanf(line, "room %d \"%[^\"]\"", &id, desc) == 2`.
The trailing `"` of the format is irrelevant to the return value,
because both conversions have already been assigned when it is reached. -/
def sscanfRoom (line : Line) : Option (Int × List Char) :=
  match dropLit ( "room" ).data line with
  | none => none
  | some r1 =>
    match scanInt r1 with
    | none => none
    | some (id, r2) =>
      match r2.dropWhile isSpaceByte with
      | [] => none
      | c :: r4 =>
        if c = quoteChar then
          let desc := r4.takeWhile (fun c2 => c2 != quoteChar)
          if desc = [] then none else some (id, desc)
        else none

/-- `sscanf(line, "link %d %s %d", &from_id, dir_str, &to_id) == 3`. -/
def sscanfLink (line : Line) : Option (Int × List Char × Int) :=
  match dropLit ( "link" ).data line with
  | none => none
  | some r1 =>
    match scanInt r1 with
    | none => none
    | some (fromId, r2) =>
      match scanToken r2 with
      | none => none
      | some (dirStr, r3) =>
        match scanInt r3 with
        | none => none
        | some (toId, _) => some (fromId, dirStr, toId)

-- ## Core data structures

inductive Direction
  | north
  | south
  | east
  | west
  deriving DecidableEq

/-- A `Room`: `exits` is the array of four room pointers, one per `Direction`;
a pointer is the index of the target room in `all_rooms`. -/
structure Room where
  id : Int
  description : List Char
  exitN : Option Nat
  exitS : Option Nat
  exitE : Option Nat
  exitW : Option Nat
  deriving DecidableEq

def Room.exit (r : Room) : Direction → Option Nat
  | Direction.north => r.exitN
  | Direction.south => r.exitS
  | Direction.east => r.exitE
  | Direction.west => r.exitW

/-- `from_room->exits[dir] = to_room`. -/
def Room.setExit (r : Room) (d : Direction) (t : Nat) : Room :=
  match d with
  | Direction.north => { r with exitN := some t }
  | Direction.south => { r with exitS := some t }
  | Direction.east => { r with exitE := some t }
  | Direction.west => { r with exitW := some t }

def mkRoom (id : Int) (desc : List Char) : Room :=
  { id := id, description := desc, exitN := none, exitS := none, exitE := none, exitW := none }

def MAX_ROOMS : Nat := 100

def MAX_LOG_MESSAGES : Nat := 10

/-- `GameState`: `rooms` is the populated prefix of `all_rooms`
(so `num_rooms = rooms.length`); `player` is `player.current_room`
(NULL = `none`); `logMessages` with `log_count = logMessages.length`.
The ncurses window handles are presentation-only and not modelled. -/
structure GameState where
  rooms : List Room
  player : Option Nat
  gameShouldClose : Bool
  logMessages : List (List Char)
  deriving DecidableEq

/-- The freshly `malloc`ed and `memset(0)` state at the top of `load_world`. -/
def initialState : GameState :=
  { rooms := [], player := none, gameShouldClose := false, logMessages := [] }

/-- `find_room_by_id`: linear scan, first matching id wins, NULL if absent. -/
def find_room_by_id : List Room → Int → Option Nat
  | [], _ => none
  | r :: rs, x => if r.id = x then some 0 else (find_room_by_id rs x).map (fun n => n + 1)

/-- The same linear scan on a bare list of ids. -/
def idFind : List Int → Int → Option Nat
  | [], _ => none
  | y :: ys, x => if y = x then some 0 else (idFind ys x).map (fun n => n + 1)

-- ## World loading

/-- `strncmp(line, "room", 4) == 0`. -/
def isRoomLine (l : Line) : Bool := List.isPrefixOf ( "room" ).data l

/-- `strncmp(line, "link", 4) == 0`. -/
def isLinkLine (l : Line) : Bool := List.isPrefixOf ( "link" ).data l

/-- `parse_room`: guard against overflow, parse, append a fresh room with
all exits NULL. -/
def parse_room (line : Line) (g : GameState) : Option GameState :=
  if MAX_ROOMS ≤ g.rooms.length then none
  else
    match sscanfRoom line with
    | none => none
    | some (id, desc) => some { g with rooms := g.rooms ++ [mkRoom id desc] }

def strToDir (s : List Char) : Option Direction :=
  if s = ( "n" ).data then some Direction.north
  else if s = ( "s" ).data then some Direction.south
  else if s = ( "e" ).data then some Direction.east
  else if s = ( "w" ).data then some Direction.west
  else none

/-- Store the directed edge in the from-room's exit slot (index form of
`from_room->exits[dir] = to_room`). -/
def applyLink1 (rooms : List Room) (tr : Nat × Direction × Nat) : List Room :=
  match rooms.get? tr.1 with
  | none => rooms
  | some r => rooms.set tr.1 (r.setExit tr.2.1 tr.2.2)

def linkApply (g : GameState) (fi : Nat) (d : Direction) (ti : Nat) : GameState :=
  { g with rooms := applyLink1 g.rooms (fi, d, ti) }

/-- `parse_link`: parse, resolve both endpoints, check the direction code,
then set the one exit slot. -/
def parse_link (line : Line) (g : GameState) : Option GameState :=
  match sscanfLink line with
  | none => none
  | some (fromId, dirStr, toId) =>
    match find_room_by_id g.rooms fromId, find_room_by_id g.rooms toId with
    | some fi, some ti =>
      match strToDir dirStr with
      | some d => some (linkApply g fi d ti)
      | none => none
    | some _, none => none
    | none, _ => none

/-- Pass 1 of `load_world`: every line beginning with `room` goes through
`parse_room`; any failure aborts the whole load. -/
def passRooms : List Line → GameState → Option GameState
  | [], g => some g
  | l :: ls, g =>
    if isRoomLine l then
      match parse_room l g with
      | none => none
      | some g2 => passRooms ls g2
    else passRooms ls g

/-- Pass 2 of `load_world`: every line beginning with `link` goes through
`parse_link`; any failure aborts the whole load. -/
def passLinks : List Line → GameState → Option GameState
  | [], g => some g
  | l :: ls, g =>
    if isLinkLine l then
      match parse_link l g with
      | none => none
      | some g2 => passLinks ls g2
    else passLinks ls g

/-- `load_world` on the list of lines of the file: pass 1, rewind, pass 2. -/
def load_world (lines : List Line) : Option GameState :=
  match passRooms lines initialState with
  | none => none
  | some g => passLinks lines g

-- ## Specification-side description of a successful load

/-- The rooms created by pass 1, in file order. -/
def declaredRooms (lines : List Line) : List Room :=
  lines.filterMap (fun l =>
    if isRoomLine l then (sscanfRoom l).map (fun p => mkRoom p.1 p.2) else none)

def declaredIds (lines : List Line) : List Int := (declaredRooms lines).map Room.id

/-- The parsed link lines, in file order. -/
def linkTriples (lines : List Line) : List (Int × List Char × Int) :=
  lines.filterMap (fun l => if isLinkLine l then sscanfLink l else none)

def resolveTriple (ids : List Int) (tr : Int × List Char × Int) :
    Option (Nat × Direction × Nat) :=
  match idFind ids tr.1, strToDir tr.2.1, idFind ids tr.2.2 with
  | some fi, some d, some ti => some (fi, d, ti)
  | some _, some _, none => none
  | some _, none, _ => none
  | none, _, _ => none

def resolvedTriples (lines : List Line) : List (Nat × Direction × Nat) :=
  (linkTriples lines).filterMap (resolveTriple (declaredIds lines))

def applyLinks (trs : List (Nat × Direction × Nat)) (rooms : List Room) : List Room :=
  trs.foldl applyLink1 rooms

/-- The state a successful `load_world` produces. -/
def worldOf (lines : List Line) : GameState :=
  { rooms := applyLinks (resolvedTriples lines) (declaredRooms lines),
    player := none, gameShouldClose := false, logMessages := [] }

/-- The target of the last link entry for a given room index and direction. -/
def lastTarget : List (Nat × Direction × Nat) → Nat → Direction → Option Nat
  | [], _, _ => none
  | tr :: trs, fi, d =>
    match lastTarget trs fi d with
    | some t => some t
    | none => if tr.1 = fi ∧ tr.2.1 = d then some tr.2.2 else none

/-- A link line that `parse_link` would accept against the given set of
room ids: it parses, its direction code is one of n/s/e/w, and both of
its endpoint ids name declared rooms. -/
def linkOk (ids : List Int) (l : Line) : Bool :=
  match sscanfLink l with
  | none => false
  | some (f, ds, t) => (strToDir ds).isSome && (idFind ids f).isSome && (idFind ids t).isSome

/-- A well-formed map text: every room line parses, at most `MAX_ROOMS`
rooms are declared, and every link line parses with a valid direction and
declared endpoints. -/
def WellFormedMap (lines : List Line) : Prop :=
  (∀ l ∈ lines, isRoomLine l = true → (sscanfRoom l).isSome = true) ∧
  (declaredRooms lines).length ≤ MAX_ROOMS ∧
  (∀ l ∈ lines, isLinkLine l = true → linkOk (declaredIds lines) l = true)

def countRoomLines (lines : List Line) : Nat := (lines.filter isRoomLine).length

/-- What lies behind room index `i` of `g` in direction `d`. -/
def exitAt (rooms : List Room) (i : Nat) (d : Direction) : Option Nat :=
  match rooms.get? i with
  | none => none
  | some r => r.exit d

def roomExit (g : GameState) (i : Nat) (d : Direction) : Option Nat :=
  exitAt g.rooms i d

-- ## The transcript log

/-- The log update of `ui_log`: when the log is full, free and shift out
the oldest message, then append the new one. -/
def uiLogList (l : List (List Char)) (m : List Char) : List (List Char) :=
  (if MAX_LOG_MESSAGES ≤ l.length then l.drop 1 else l) ++ [m]

def ui_log (g : GameState) (message : List Char) : GameState :=
  { g with logMessages := uiLogList g.logMessages message }

-- ## Command handlers

def direction_to_string : Direction → List Char
  | Direction.north => ( "north" ).data
  | Direction.south => ( "south" ).data
  | Direction.east => ( "east" ).data
  | Direction.west => ( "west" ).data

def dirEnum : List Direction := [Direction.north, Direction.south, Direction.east, Direction.west]

def handle_quit (g : GameState) (_argument : Option Line) : GameState :=
  { g with gameShouldClose := true }

def msgNoExits : List Char := ( "There are no obvious exits." ).data

def msgGoWhere : List Char := ( "Go where?" ).data

def msgNotValidDir : List Char :=
  ( "That" ).data ++ [apoChar] ++ ( "s not a valid direction." ).data

def msgCantGo : List Char :=
  ( "You can" ).data ++ [apoChar] ++ ( "t go that way." ).data

def msgNotUnderstood : List Char :=
  ( "I don" ).data ++ [apoChar] ++ ( "t understand that command." ).data

/-- `handle_look`: log the description, then either the `Exits: ...` line
(built in NORTH,SOUTH,EAST,WEST order, each name followed by a space) or
the no-exits message.  The `none` branch is the NULL `current_room`
dereference, unreachable once the session has started. -/
def handle_look (g : GameState) (_argument : Option Line) : GameState :=
  match g.player.bind (fun i => g.rooms.get? i) with
  | none => g
  | some room =>
    let g1 := ui_log g room.description
    let exitDirs := dirEnum.filter (fun d => (room.exit d).isSome)
    if exitDirs = [] then ui_log g1 msgNoExits
    else ui_log g1 (( "Exits: " ).data ++ (exitDirs.map (fun d => direction_to_string d ++ [spaceChar])).flatten)

/-- The direction decoding inside `handle_go` (`dir = -1` becomes `none`). -/
def go_direction (arg : Line) : Option Direction :=
  if arg = ( "n" ).data ∨ arg = ( "north" ).data then some Direction.north
  else if arg = ( "s" ).data ∨ arg = ( "south" ).data then some Direction.south
  else if arg = ( "e" ).data ∨ arg = ( "east" ).data then some Direction.east
  else if arg = ( "w" ).data ∨ arg = ( "west" ).data then some Direction.west
  else none

def handle_go (g : GameState) (argument : Option Line) : GameState :=
  match argument with
  | none => ui_log g msgGoWhere
  | some arg =>
    match go_direction arg with
    | none => ui_log g msgNotValidDir
    | some dir =>
      match g.player.bind (fun i => g.rooms.get? i) with
      | none => g
      | some room =>
        match room.exit dir with
        | some nextIdx => handle_look { g with player := some nextIdx } none
        | none => ui_log g msgCantGo

def handle_help (g : GameState) (_argument : Option Line) : GameState :=
  let g1 := ui_log g ( "--- Available Commands ---" ).data
  let g2 := ui_log g1 ( "look (l): Describe the current room and exits." ).data
  let g3 := ui_log g2 ( "go <dir>: Move in a direction (north, south, east, west, or n,s,e,w)." ).data
  let g4 := ui_log g3 ( "help: Show this help message." ).data
  ui_log g4 ( "quit/exit: Leave the game." ).data

-- ## Command dispatch

def isDelim (c : Char) : Bool := c == spaceChar || c == newlineChar

/-- The token list produced by repeated `strtok(_, " \n")`. -/
def tokenize (cs : List Char) : List (List Char) :=
  (cs.foldr
    (fun c acc =>
      if isDelim c then [] :: acc
      else
        match acc with
        | [] => [[c]]
        | t :: ts => (c :: t) :: ts)
    []).filter (fun t => !t.isEmpty)

def command_table : List (Line × (GameState → Option Line → GameState)) :=
  [(( "quit" ).data, handle_quit),
   (( "exit" ).data, handle_quit),
   (( "look" ).data, handle_look),
   (( "l" ).data, handle_look),
   (( "go" ).data, handle_go),
   (( "north" ).data, handle_go),
   (( "south" ).data, handle_go),
   (( "east" ).data, handle_go),
   (( "west" ).data, handle_go),
   (( "n" ).data, handle_go),
   (( "s" ).data, handle_go),
   (( "e" ).data, handle_go),
   (( "w" ).data, handle_go),
   (( "help" ).data, handle_help)]

def lookupCommand : List (Line × (GameState → Option Line → GameState)) → Line →
    Option (GameState → Option Line → GameState)
  | [], _ => none
  | (name, h) :: rest, v => if v = name then some h else lookupCommand rest v

def isDirWord (v : Line) : Bool :=
  v == ( "n" ).data || v == ( "north" ).data ||
  v == ( "s" ).data || v == ( "south" ).data ||
  v == ( "e" ).data || v == ( "east" ).data ||
  v == ( "w" ).data || v == ( "west" ).data

/-- `parse_and_execute_command`: lowercase, tokenize, canonicalize bare
direction words into `go <dir>`, then first-match linear scan of the
command table. -/
def parse_and_execute_command (g : GameState) (input : Line) : GameState :=
  let low := input.map toLowerChar
  match tokenize low with
  | [] => g
  | verb0 :: rest =>
    let argument0 : Option Line := rest.head?
    let verb := if isDirWord verb0 then ( "go" ).data else verb0
    let argument := if isDirWord verb0 then some verb0 else argument0
    match lookupCommand command_table verb with
    | some h => h g argument
    | none => ui_log g msgNotUnderstood

-- ## The game loop

/-- Outcome of running `game_loop` against a finite stream of input lines.
`exited` is the loop condition `!game->game_should_close` failing at an
iteration boundary, with the input lines it never read; `awaiting` is the
loop blocked inside `ui_get_input` with the flag still clear and no input
left — the source checks no end-of-input condition, so the loop does not
exit there. -/
inductive LoopResult
  | exited (g : GameState) (unread : List Line)
  | awaiting (g : GameState)
  deriving DecidableEq

def LoopResult.exitedFlag : LoopResult → Bool
  | LoopResult.exited _ _ => true
  | LoopResult.awaiting _ => false

/-- `game_loop`: while the flag is clear, read one line and dispatch it. -/
def game_loop : GameState → List Line → LoopResult
  | g, [] => if g.gameShouldClose then LoopResult.exited g [] else LoopResult.awaiting g
  | g, l :: rest =>
    if g.gameShouldClose then LoopResult.exited g (l :: rest)
    else game_loop (parse_and_execute_command g l) rest

-- ## Concrete fixtures used by witnesses and counterexamples

def direction_code : Direction → List Char
  | Direction.north => ( "n" ).data
  | Direction.south => ( "s" ).data
  | Direction.east => ( "e" ).data
  | Direction.west => ( "w" ).data

/-- Every link line of the map for from-room `f` and direction code `ds`
has target `t` (used to state that a link is unambiguous). -/
def linkAgrees (f : Int) (ds : List Char) (t : Int) (l : Line) : Bool :=
  match sscanfLink l with
  | none => true
  | some tr => !((tr.1 == f) && (tr.2.1 == ds)) || (tr.2.2 == t)

/-- The line is not a link for from-room `f` with direction code `ds`. -/
def linkNotSame (f : Int) (ds : List Char) (l : Line) : Bool :=
  match sscanfLink l with
  | none => true
  | some tr => !((tr.1 == f) && (tr.2.1 == ds))

/-- A map whose link line references a room declared later in the file. -/
def mapForward : List Line :=
  [( "link 0 n 1" ).data, ( "room 0 \"Library\"" ).data, ( "room 1 \"Cavern\"" ).data]

/-- A map declaring two rooms with the same id. -/
def mapDupIds : List Line :=
  [( "room 7 \"First\"" ).data, ( "room 7 \"Second\"" ).data]

/-- A small well-formed map with distinct ids. -/
def mapGood : List Line :=
  [( "room 0 \"Library\"" ).data, ( "room 1 \"Cavern\"" ).data, ( "link 0 n 1" ).data]

/-- A map with a link to an undeclared room id. -/
def mapBadLink : List Line :=
  [( "room 0 \"Library\"" ).data, ( "link 0 n 5" ).data]

/-- A map with two link lines for the same from-room and direction. -/
def mapDupLinks : List Line :=
  [( "room 0 \"Library\"" ).data, ( "room 1 \"Cavern\"" ).data, ( "room 2 \"Tunnel\"" ).data,
   ( "link 0 n 1" ).data, ( "link 0 n 2" ).data]

/-- A map declaring 101 rooms. -/
def mapHuge : List Line := List.replicate 101 (( "room 0 \"Library\"" ).data)

def demoRoomA : Room :=
  { id := 0, description := ( "Library" ).data,
    exitN := some 1, exitS := none, exitE := none, exitW := none }

def demoRoomB : Room := mkRoom 1 ( "Cavern" ).data

/-- A running session: two rooms, the player in room 0, a north exit to room 1. -/
def demoState : GameState :=
  { rooms := [demoRoomA, demoRoomB], player := some 0,
    gameShouldClose := false, logMessages := [] }

/-- A session whose transcript log is at capacity. -/
def fullLogState : GameState :=
  { rooms := [demoRoomA, demoRoomB], player := some 0,
    gameShouldClose := false, logMessages := List.replicate 10 ( "old" ).data }

-- ## Small list lemmas (self-contained, proved by induction)

theorem getSetSame (l : List α) (i : Nat) (a : α) (h : i < l.length) :
    (l.set i a).get? i = some a := by
  induction l generalizing i with
  | nil => simp at h
  | cons x xs ih =>
    cases i with
    | zero => rfl
    | succ n => simpa using ih n (by simpa using h)

theorem getSetOther (l : List α) (i j : Nat) (a : α) (h : i ≠ j) :
    (l.set i a).get? j = l.get? j := by
  induction l generalizing i j with
  | nil => simp
  | cons x xs ih =>
    cases i with
    | zero =>
      cases j with
      | zero => exact absurd rfl h
      | succ m => rfl
    | succ n =>
      cases j with
      | zero => rfl
      | succ m => simpa using ih n m (fun hc => h (by rw [hc]))

theorem getMap (f : α → β) (l : List α) (i : Nat) :
    (l.map f).get? i = (l.get? i).map f := by
  induction l generalizing i with
  | nil => rfl
  | cons x xs ih =>
    cases i with
    | zero => rfl
    | succ n => exact ih n

theorem getSomeLt (l : List α) (i : Nat) (a : α) (h : l.get? i = some a) : i < l.length := by
  induction l generalizing i with
  | nil => simp [List.get?] at h
  | cons x xs ih =>
    cases i with
    | zero => simp
    | succ n =>
      have := ih n (by simpa using h)
      simpa using Nat.succ_lt_succ this

theorem getSomeMem (l : List α) (i : Nat) (a : α) (h : l.get? i = some a) : a ∈ l := by
  induction l generalizing i with
  | nil => simp [List.get?] at h
  | cons x xs ih =>
    cases i with
    | zero =>
      simp only [List.get?, Option.some.injEq] at h
      subst h
      exact List.mem_cons_self _ _
    | succ n => exact List.mem_cons_of_mem x (ih n (by simpa using h))

theorem setLength (l : List α) (i : Nat) (a : α) : (l.set i a).length = l.length := by
  simp

-- ## Room lemmas

theorem setExit_id (r : Room) (d : Direction) (t : Nat) : (r.setExit d t).id = r.id := by
  cases d <;> rfl

theorem exit_setExit_self (r : Room) (d : Direction) (t : Nat) :
    (r.setExit d t).exit d = some t := by
  cases d <;> rfl

theorem exit_setExit_other (r : Room) (d d2 : Direction) (t : Nat) (h : d2 ≠ d) :
    (r.setExit d t).exit d2 = r.exit d2 := by
  cases d <;> cases d2 <;> first | exact absurd rfl h | rfl

theorem mkRoom_exit (i : Int) (dsc : List Char) (d : Direction) : (mkRoom i dsc).exit d = none := by
  cases d <;> rfl

-- ## applyLink1 / applyLinks lemmas

theorem applyLink1_length (rooms : List Room) (tr : Nat × Direction × Nat) :
    (applyLink1 rooms tr).length = rooms.length := by
  unfold applyLink1
  cases rooms.get? tr.1 <;> simp

theorem applyLinks_length (trs : List (Nat × Direction × Nat)) (rooms : List Room) :
    (applyLinks trs rooms).length = rooms.length := by
  induction trs generalizing rooms with
  | nil => rfl
  | cons tr trs ih =>
    show (applyLinks trs (applyLink1 rooms tr)).length = rooms.length
    rw [ih, applyLink1_length]

theorem mapId_set (rooms : List Room) (i : Nat) (r0 r : Room) (hget : rooms.get? i = some r0)
    (hid : r.id = r0.id) : (rooms.set i r).map Room.id = rooms.map Room.id := by
  induction rooms generalizing i with
  | nil => rfl
  | cons x xs ih =>
    cases i with
    | zero =>
      simp only [List.get?, Option.some.injEq] at hget
      subst hget
      simp [hid]
    | succ n =>
      simp only [List.get?] at hget
      simp [ih n hget]

theorem applyLink1_ids (rooms : List Room) (tr : Nat × Direction × Nat) :
    (applyLink1 rooms tr).map Room.id = rooms.map Room.id := by
  unfold applyLink1
  cases hget : rooms.get? tr.1 with
  | none => rfl
  | some r => exact mapId_set rooms tr.1 r _ hget (setExit_id r tr.2.1 tr.2.2)

theorem applyLinks_ids (trs : List (Nat × Direction × Nat)) (rooms : List Room) :
    (applyLinks trs rooms).map Room.id = rooms.map Room.id := by
  induction trs generalizing rooms with
  | nil => rfl
  | cons tr trs ih =>
    show (applyLinks trs (applyLink1 rooms tr)).map Room.id = rooms.map Room.id
    rw [ih, applyLink1_ids]

theorem exitAt_applyLink1 (rooms : List Room) (fj fi tj : Nat) (d2 d : Direction)
    (hfi : fi < rooms.length) :
    exitAt (applyLink1 rooms (fj, d2, tj)) fi d =
      if fj = fi ∧ d2 = d then some tj else exitAt rooms fi d := by
  simp only [applyLink1, exitAt]
  by_cases hj : fj = fi
  · subst hj
    cases hget : rooms.get? fj with
    | none =>
      rw [List.get?_eq_none] at hget
      omega
    | some r =>
      simp only [hget]
      rw [getSetSame rooms fj (r.setExit d2 tj) hfi]
      by_cases hd : d2 = d
      · subst hd
        simp [exit_setExit_self]
      · simp [hd, exit_setExit_other r d2 d tj (fun hc => hd hc.symm)]
  · cases hget : rooms.get? fj with
    | none => simp [hget, hj]
    | some r =>
      simp only [hget]
      rw [getSetOther rooms fj fi (r.setExit d2 tj) hj]
      simp [hj]

theorem exitAt_applyLinks (trs : List (Nat × Direction × Nat)) (rooms : List Room)
    (fi : Nat) (d : Direction) (hfi : fi < rooms.length) :
    exitAt (applyLinks trs rooms) fi d =
      match lastTarget trs fi d with
      | some t => some t
      | none => exitAt rooms fi d := by
  induction trs generalizing rooms with
  | nil => rfl
  | cons tr trs ih =>
    obtain ⟨fj, d2, tj⟩ := tr
    have hfi2 : fi < (applyLink1 rooms (fj, d2, tj)).length := by
      rw [applyLink1_length]; exact hfi
    show exitAt (applyLinks trs (applyLink1 rooms (fj, d2, tj))) fi d = _
    rw [ih (applyLink1 rooms (fj, d2, tj)) hfi2]
    rw [exitAt_applyLink1 rooms fj fi tj d2 d hfi]
    show (match lastTarget trs fi d with
      | some t => some t
      | none => if fj = fi ∧ d2 = d then some tj else exitAt rooms fi d) =
      (match lastTarget ((fj, d2, tj) :: trs) fi d with
      | some t => some t
      | none => exitAt rooms fi d)
    cases h : lastTarget trs fi d with
    | some t => simp [lastTarget, h]
    | none =>
      by_cases hc : fj = fi ∧ d2 = d
      · simp [lastTarget, h, hc]
      · simp [lastTarget, h, hc]

-- ## lastTarget lemmas

theorem lastTarget_append (A B : List (Nat × Direction × Nat)) (fi : Nat) (d : Direction) :
    lastTarget (A ++ B) fi d =
      match lastTarget B fi d with
      | some t => some t
      | none => lastTarget A fi d := by
  induction A with
  | nil => cases h : lastTarget B fi d <;> simp [h, lastTarget]
  | cons tr A ih =>
    show lastTarget (tr :: (A ++ B)) fi d = _
    cases h : lastTarget B fi d <;>
      cases h2 : lastTarget A fi d <;>
        simp [lastTarget, ih, h, h2]

theorem lastTarget_some_mem (trs : List (Nat × Direction × Nat)) (fi : Nat) (d : Direction)
    (t : Nat) (h : lastTarget trs fi d = some t) :
    ∃ tr ∈ trs, tr.1 = fi ∧ tr.2.1 = d ∧ tr.2.2 = t := by
  induction trs with
  | nil => simp [lastTarget] at h
  | cons tr trs ih =>
    unfold lastTarget at h
    cases hrec : lastTarget trs fi d with
    | some t2 =>
      rw [hrec] at h
      obtain ⟨tr2, hm, hp⟩ := ih (by rw [hrec, ← h])
      exact ⟨tr2, List.mem_cons_of_mem tr hm, hp⟩
    | none =>
      rw [hrec] at h
      by_cases hc : tr.1 = fi ∧ tr.2.1 = d
      · rw [if_pos hc] at h
        cases h
        exact ⟨tr, List.mem_cons_self tr trs, hc.1, hc.2, rfl⟩
      · rw [if_neg hc] at h
        cases h

theorem lastTarget_none_of (trs : List (Nat × Direction × Nat)) (fi : Nat) (d : Direction)
    (h : ∀ tr ∈ trs, ¬(tr.1 = fi ∧ tr.2.1 = d)) : lastTarget trs fi d = none := by
  induction trs with
  | nil => rfl
  | cons tr trs ih =>
    unfold lastTarget
    rw [ih (fun tr2 hm => h tr2 (List.mem_cons_of_mem tr hm))]
    rw [if_neg (h tr (List.mem_cons_self tr trs))]

theorem lastTarget_agree (trs : List (Nat × Direction × Nat)) (fi : Nat) (d : Direction)
    (ti : Nat) (hag : ∀ tr ∈ trs, tr.1 = fi → tr.2.1 = d → tr.2.2 = ti)
    (hex : ∃ tr ∈ trs, tr.1 = fi ∧ tr.2.1 = d) :
    lastTarget trs fi d = some ti := by
  induction trs with
  | nil => obtain ⟨tr, hm, _⟩ := hex; simp at hm
  | cons tr trs ih =>
    unfold lastTarget
    cases hrec : lastTarget trs fi d with
    | some t2 =>
      obtain ⟨tr2, hm2, hp2⟩ := lastTarget_some_mem trs fi d t2 hrec
      have := hag tr2 (List.mem_cons_of_mem tr hm2) hp2.1 hp2.2.1
      rw [← hp2.2.2, this]
    | none =>
      obtain ⟨tr3, hm3, hp3⟩ := hex
      rcases List.mem_cons.mp hm3 with heq | hm4
      · subst heq
        rw [if_pos hp3]
        rw [hag tr3 (List.mem_cons_self tr3 trs) hp3.1 hp3.2]
      · have : lastTarget trs fi d = some ti :=
          ih (fun tr2 hm => hag tr2 (List.mem_cons_of_mem tr hm)) ⟨tr3, hm4, hp3⟩
        rw [this] at hrec
        cases hrec

-- ## find_room_by_id / idFind lemmas

theorem find_eq_idFind (rooms : List Room) (x : Int) :
    find_room_by_id rooms x = idFind (rooms.map Room.id) x := by
  induction rooms with
  | nil => rfl
  | cons r rs ih =>
    show (if r.id = x then some 0 else (find_room_by_id rs x).map (fun n => n + 1)) = _
    rw [ih]
    rfl

theorem idFind_get (ids : List Int) (x : Int) (i : Nat) (h : idFind ids x = some i) :
    ids.get? i = some x := by
  induction ids generalizing i with
  | nil => simp [idFind] at h
  | cons y ys ih =>
    unfold idFind at h
    by_cases hy : y = x
    · rw [if_pos hy] at h
      cases h
      simpa using hy
    · rw [if_neg hy] at h
      cases hrec : idFind ys x with
      | none => rw [hrec] at h; cases h
      | some j =>
        rw [hrec] at h
        cases h
        simpa using ih j hrec

theorem idFind_lt (ids : List Int) (x : Int) (i : Nat) (h : idFind ids x = some i) :
    i < ids.length :=
  getSomeLt ids i x (idFind_get ids x i h)

theorem idFind_isSome_of_mem (ids : List Int) (x : Int) (h : x ∈ ids) :
    (idFind ids x).isSome = true := by
  induction ids with
  | nil => simp at h
  | cons y ys ih =>
    unfold idFind
    by_cases hy : y = x
    · rw [if_pos hy]; rfl
    · rw [if_neg hy]
      rcases List.mem_cons.mp h with heq | hm
      · exact absurd heq.symm hy
      · cases hrec : idFind ys x with
        | none => rw [hrec] at ih; exact absurd (ih hm) (by simp)
        | some j => rfl

theorem idFind_nodup (ids : List Int) (i : Nat) (x : Int) (hnd : ids.Nodup)
    (h : ids.get? i = some x) : idFind ids x = some i := by
  induction ids generalizing i with
  | nil => simp [List.get?] at h
  | cons y ys ih =>
    cases i with
    | zero =>
      simp only [List.get?, Option.some.injEq] at h
      subst h
      simp [idFind]
    | succ n =>
      simp only [List.get?] at h
      have hmem : x ∈ ys := getSomeMem ys n x h
      have hy : ¬y = x := fun hc => (List.nodup_cons.mp hnd).1 (hc ▸ hmem)
      unfold idFind
      rw [if_neg hy, ih n (List.nodup_cons.mp hnd).2 h]
      rfl

-- ## Pass 1 characterization

theorem gameStateEta (g : GameState) : { g with rooms := g.rooms } = g := rfl

theorem passRooms_some (ls : List Line) (g g2 : GameState) (h : passRooms ls g = some g2) :
    g2 = { g with rooms := g.rooms ++ declaredRooms ls } ∧
      ∀ l ∈ ls, isRoomLine l = true → (sscanfRoom l).isSome = true := by
  induction ls generalizing g with
  | nil =>
    unfold passRooms at h
    cases h
    constructor
    · simp [declaredRooms, gameStateEta]
    · intro l hl
      simp at hl
  | cons l ls ih =>
    unfold passRooms at h
    by_cases hr : isRoomLine l
    · rw [if_pos hr] at h
      unfold parse_room at h
      by_cases hcap : MAX_ROOMS ≤ g.rooms.length
      · rw [if_pos hcap] at h; cases h
      · rw [if_neg hcap] at h
        cases hs : sscanfRoom l with
        | none => rw [hs] at h; cases h
        | some p =>
          rw [hs] at h
          obtain ⟨ih1, ih2⟩ := ih { g with rooms := g.rooms ++ [mkRoom p.1 p.2] } h
          constructor
          · rw [ih1]
            simp only [declaredRooms, List.filterMap_cons, hr, hs]
            simp [declaredRooms]
          · intro l2 hl2 hr2
            rcases List.mem_cons.mp hl2 with heq | hm
            · subst heq; rw [hs]; rfl
            · exact ih2 l2 hm hr2
    · rw [if_neg hr] at h
      obtain ⟨ih1, ih2⟩ := ih g h
      constructor
      · rw [ih1]
        simp only [declaredRooms, List.filterMap_cons]
        simp [hr, declaredRooms]
      · intro l2 hl2 hr2
        rcases List.mem_cons.mp hl2 with heq | hm
        · subst heq; exact absurd hr2 hr
        · exact ih2 l2 hm hr2


theorem passRooms_ok (ls : List Line) (g : GameState)
    (hparse : ∀ l ∈ ls, isRoomLine l = true → (sscanfRoom l).isSome = true)
    (hcap : g.rooms.length + (declaredRooms ls).length ≤ MAX_ROOMS) :
    passRooms ls g = some { g with rooms := g.rooms ++ declaredRooms ls } := by
  induction ls generalizing g with
  | nil => simp [passRooms, declaredRooms, gameStateEta]
  | cons l ls ih =>
    unfold passRooms
    by_cases hr : isRoomLine l
    · rw [if_pos hr]
      have hps : (sscanfRoom l).isSome = true := hparse l (List.mem_cons_self l ls) hr
      cases hs : sscanfRoom l with
      | none => rw [hs] at hps; cases hps
      | some p =>
        have hdecl : declaredRooms (l :: ls) = mkRoom p.1 p.2 :: declaredRooms ls := by
          simp only [declaredRooms, List.filterMap_cons, hr, hs]
          simp [declaredRooms]
        rw [hdecl] at hcap
        have hrec := ih { g with rooms := g.rooms ++ [mkRoom p.1 p.2] }
          (fun l2 hm hr2 => hparse l2 (List.mem_cons_of_mem l hm) hr2)
          (by simp at hcap ⊢; omega)
        unfold parse_room
        rw [if_neg (by simp at hcap; omega), hs]
        show passRooms ls { g with rooms := g.rooms ++ [mkRoom p.1 p.2] } = _
        rw [hrec, hdecl]
        simp
    · rw [if_neg hr]
      have hdecl : declaredRooms (l :: ls) = declaredRooms ls := by
        simp only [declaredRooms, List.filterMap_cons]
        simp [hr, declaredRooms]
      rw [hdecl] at hcap
      rw [ih g (fun l2 hm hr2 => hparse l2 (List.mem_cons_of_mem l hm) hr2) hcap]
      rw [hdecl]

theorem passRooms_bound (ls : List Line) (g g2 : GameState) (h : passRooms ls g = some g2) :
    g2.rooms.length ≤ MAX_ROOMS ∨ g2.rooms = g.rooms := by
  induction ls generalizing g with
  | nil =>
    unfold passRooms at h
    cases h
    exact Or.inr rfl
  | cons l ls ih =>
    unfold passRooms at h
    by_cases hr : isRoomLine l
    · rw [if_pos hr] at h
      unfold parse_room at h
      by_cases hcap : MAX_ROOMS ≤ g.rooms.length
      · rw [if_pos hcap] at h; cases h
      · rw [if_neg hcap] at h
        cases hs : sscanfRoom l with
        | none => rw [hs] at h; cases h
        | some p =>
          rw [hs] at h
          rcases ih { g with rooms := g.rooms ++ [mkRoom p.1 p.2] } h with hle | heq
          · exact Or.inl hle
          · refine Or.inl ?_
            rw [heq]
            simp only [List.length_append, List.length_cons, List.length_nil]
            omega
    · rw [if_neg hr] at h
      exact ih g h

theorem passRooms_bad (ls : List Line) (g : GameState)
    (h : ∃ l ∈ ls, isRoomLine l = true ∧ sscanfRoom l = none) : passRooms ls g = none := by
  induction ls generalizing g with
  | nil => obtain ⟨l, hm, _⟩ := h; simp at hm
  | cons l ls ih =>
    unfold passRooms
    obtain ⟨l2, hm, hr2, hs2⟩ := h
    by_cases hr : isRoomLine l
    · rw [if_pos hr]
      unfold parse_room
      by_cases hcap : MAX_ROOMS ≤ g.rooms.length
      · rw [if_pos hcap]
      · rw [if_neg hcap]
        cases hs : sscanfRoom l with
        | none => rfl
        | some p =>
          rcases List.mem_cons.mp hm with heq | hm2
          · subst heq; rw [hs] at hs2; cases hs2
          · exact ih { g with rooms := g.rooms ++ [mkRoom p.1 p.2] } ⟨l2, hm2, hr2, hs2⟩
    · rw [if_neg hr]
      rcases List.mem_cons.mp hm with heq | hm2
      · subst heq; exact absurd hr2 hr
      · exact ih g ⟨l2, hm2, hr2, hs2⟩

theorem declaredRooms_count (ls : List Line)
    (hparse : ∀ l ∈ ls, isRoomLine l = true → (sscanfRoom l).isSome = true) :
    (declaredRooms ls).length = countRoomLines ls := by
  induction ls with
  | nil => rfl
  | cons l ls ih =>
    have ihr := ih (fun l2 hm hr2 => hparse l2 (List.mem_cons_of_mem l hm) hr2)
    by_cases hr : isRoomLine l
    · have hps : (sscanfRoom l).isSome = true := hparse l (List.mem_cons_self l ls) hr
      cases hs : sscanfRoom l with
      | none => rw [hs] at hps; cases hps
      | some p =>
        simp only [declaredRooms, countRoomLines, List.filterMap_cons, List.filter_cons, hr, hs]
        simp only [declaredRooms, countRoomLines] at ihr
        simp [ihr]
    · simp only [declaredRooms, countRoomLines, List.filterMap_cons, List.filter_cons, hr]
      simp only [declaredRooms, countRoomLines] at ihr
      simp [ihr, hr]

-- ## Pass 2 characterization

theorem parse_link_eq (l : Line) (g : GameState) (f t : Int) (ds : List Char)
    (hs : sscanfLink l = some (f, ds, t)) :
    parse_link l g =
      match find_room_by_id g.rooms f, find_room_by_id g.rooms t with
      | some fi, some ti =>
        match strToDir ds with
        | some d => some (linkApply g fi d ti)
        | none => none
      | some _, none => none
      | none, _ => none := by
  unfold parse_link
  rw [hs]

theorem linkOk_eq (ids : List Int) (l : Line) (f t : Int) (ds : List Char)
    (hs : sscanfLink l = some (f, ds, t)) :
    linkOk ids l = ((strToDir ds).isSome && (idFind ids f).isSome && (idFind ids t).isSome) := by
  unfold linkOk
  rw [hs]

theorem parse_link_ok (l : Line) (g : GameState) (f t : Int) (ds : List Char)
    (d : Direction) (fi ti : Nat)
    (hs : sscanfLink l = some (f, ds, t))
    (hf : idFind (g.rooms.map Room.id) f = some fi)
    (ht : idFind (g.rooms.map Room.id) t = some ti)
    (hd : strToDir ds = some d) :
    parse_link l g = some (linkApply g fi d ti) := by
  rw [parse_link_eq l g f t ds hs, find_eq_idFind, find_eq_idFind, hf, ht, hd]

theorem parse_link_none (l : Line) (g : GameState) (ids : List Int)
    (hids : g.rooms.map Room.id = ids) (hbad : linkOk ids l = false) :
    parse_link l g = none := by
  cases hs : sscanfLink l with
  | none => unfold parse_link; rw [hs]
  | some tr =>
    obtain ⟨f, ds, t⟩ := tr
    rw [linkOk_eq ids l f t ds hs] at hbad
    rw [parse_link_eq l g f t ds hs, find_eq_idFind, find_eq_idFind, hids]
    cases hf : idFind ids f with
    | none => rfl
    | some fi =>
      cases ht : idFind ids t with
      | none => rfl
      | some ti =>
        cases hd : strToDir ds with
        | none => rfl
        | some d =>
          rw [hf, ht, hd] at hbad
          simp at hbad

theorem parse_link_some_ids (l : Line) (g g2 : GameState) (h : parse_link l g = some g2) :
    g2.rooms.map Room.id = g.rooms.map Room.id ∧
      g2.player = g.player ∧ g2.gameShouldClose = g.gameShouldClose ∧
      g2.logMessages = g.logMessages := by
  cases hs : sscanfLink l with
  | none => unfold parse_link at h; rw [hs] at h; cases h
  | some tr =>
    obtain ⟨f, ds, t⟩ := tr
    rw [parse_link_eq l g f t ds hs] at h
    cases hf : find_room_by_id g.rooms f with
    | none => rw [hf] at h; cases h
    | some fi =>
      cases ht : find_room_by_id g.rooms t with
      | none => rw [hf, ht] at h; cases h
      | some ti =>
        cases hd : strToDir ds with
        | none => rw [hf, ht, hd] at h; cases h
        | some d =>
          rw [hf, ht, hd] at h
          cases h
          exact ⟨applyLink1_ids g.rooms (fi, d, ti), rfl, rfl, rfl⟩

theorem passLinks_ok (ls : List Line) (g : GameState)
    (h : ∀ l ∈ ls, isLinkLine l = true → linkOk (g.rooms.map Room.id) l = true) :
    passLinks ls g =
      some { g with
             rooms := applyLinks ((linkTriples ls).filterMap (resolveTriple (g.rooms.map Room.id))) g.rooms } := by
  induction ls generalizing g with
  | nil => simp [passLinks, linkTriples, applyLinks, gameStateEta]
  | cons l ls ih =>
    unfold passLinks
    by_cases hl : isLinkLine l
    · rw [if_pos hl]
      have hok : linkOk (g.rooms.map Room.id) l = true := h l (List.mem_cons_self l ls) hl
      cases hs : sscanfLink l with
      | none => unfold linkOk at hok; rw [hs] at hok; cases hok
      | some tr =>
        obtain ⟨f, ds, t⟩ := tr
        rw [linkOk_eq (g.rooms.map Room.id) l f t ds hs] at hok
        cases hd : strToDir ds with
        | none => rw [hd] at hok; simp at hok
        | some d =>
          cases hf : idFind (g.rooms.map Room.id) f with
          | none => rw [hd, hf] at hok; simp at hok
          | some fi =>
            cases ht : idFind (g.rooms.map Room.id) t with
            | none => rw [hd, hf, ht] at hok; simp at hok
            | some ti =>
              rw [parse_link_ok l g f t ds d fi ti hs hf ht hd]
              have hids : (linkApply g fi d ti).rooms.map Room.id = g.rooms.map Room.id :=
                applyLink1_ids g.rooms (fi, d, ti)
              have hrec := ih (linkApply g fi d ti)
                (fun l2 hm hl2 => by rw [hids]; exact h l2 (List.mem_cons_of_mem l hm) hl2)
              show passLinks ls (linkApply g fi d ti) = _
              rw [hrec]
              have htr : linkTriples (l :: ls) = (f, ds, t) :: linkTriples ls := by
                simp only [linkTriples, List.filterMap_cons, hl, hs]
                simp [linkTriples]
              rw [htr]
              have hres : resolveTriple (g.rooms.map Room.id) (f, ds, t) = some (fi, d, ti) := by
                unfold resolveTriple
                rw [hf, ht, hd]
              simp only [List.filterMap_cons, hres, hids]
              rfl
    · rw [if_neg hl]
      have htr : linkTriples (l :: ls) = linkTriples ls := by
        simp only [linkTriples, List.filterMap_cons]
        simp [hl, linkTriples]
      rw [ih g (fun l2 hm hl2 => h l2 (List.mem_cons_of_mem l hm) hl2), htr]

theorem passLinks_bad (ls : List Line) (g : GameState) (ids : List Int)
    (hids : g.rooms.map Room.id = ids)
    (h : ∃ l ∈ ls, isLinkLine l = true ∧ linkOk ids l = false) : passLinks ls g = none := by
  induction ls generalizing g with
  | nil => obtain ⟨l, hm, _⟩ := h; simp at hm
  | cons l ls ih =>
    unfold passLinks
    obtain ⟨l2, hm, hl2, hbad⟩ := h
    by_cases hl : isLinkLine l
    · rw [if_pos hl]
      cases hp : parse_link l g with
      | none => rfl
      | some g2 =>
        rcases List.mem_cons.mp hm with heq | hm2
        · rw [parse_link_none l g ids hids (heq ▸ hbad)] at hp
          cases hp
        · have hids2 : g2.rooms.map Room.id = ids := by
            rw [(parse_link_some_ids l g g2 hp).1, hids]
          exact ih g2 hids2 ⟨l2, hm2, hl2, hbad⟩
    · rw [if_neg hl]
      rcases List.mem_cons.mp hm with heq | hm2
      · subst heq; exact absurd hl2 hl
      · exact ih g hids ⟨l2, hm2, hl2, hbad⟩

theorem passLinks_some_state (ls : List Line) (g g2 : GameState)
    (h : passLinks ls g = some g2) :
    g2.rooms.map Room.id = g.rooms.map Room.id ∧
      g2.player = g.player ∧ g2.gameShouldClose = g.gameShouldClose ∧
      g2.logMessages = g.logMessages := by
  induction ls generalizing g with
  | nil =>
    unfold passLinks at h
    cases h
    exact ⟨rfl, rfl, rfl, rfl⟩
  | cons l ls ih =>
    unfold passLinks at h
    by_cases hl : isLinkLine l
    · rw [if_pos hl] at h
      cases hp : parse_link l g with
      | none => rw [hp] at h; cases h
      | some g3 =>
        rw [hp] at h
        obtain ⟨i1, p1, c1, m1⟩ := ih g3 h
        obtain ⟨i2, p2, c2, m2⟩ := parse_link_some_ids l g g3 hp
        exact ⟨by rw [i1, i2], by rw [p1, p2], by rw [c1, c2], by rw [m1, m2]⟩
    · rw [if_neg hl] at h
      exact ih g h

-- ## load_world characterization

theorem load_world_wf (lines : List Line) (h : WellFormedMap lines) :
    load_world lines = some (worldOf lines) := by
  obtain ⟨h1, h2, h3⟩ := h
  have hp1 : passRooms lines initialState =
      some { rooms := declaredRooms lines, player := none, gameShouldClose := false, logMessages := [] } :=
    passRooms_ok lines initialState h1 (by simpa [initialState] using h2)
  have hp2 : passLinks lines ({ rooms := declaredRooms lines, player := none, gameShouldClose := false, logMessages := [] } : GameState) =
      some (worldOf lines) := by
    have h3b : ∀ l ∈ lines, isLinkLine l = true →
        linkOk (({ rooms := declaredRooms lines, player := none, gameShouldClose := false, logMessages := [] } : GameState).rooms.map Room.id) l = true := h3
    exact passLinks_ok lines _ h3b
  unfold load_world
  rw [hp1]
  exact hp2

theorem worldOf_ids (lines : List Line) :
    (worldOf lines).rooms.map Room.id = declaredIds lines := by
  unfold worldOf
  rw [applyLinks_ids]
  rfl

theorem declaredRooms_all_none (lines : List Line) (fi : Nat) (d : Direction) :
    exitAt (declaredRooms lines) fi d = none := by
  unfold exitAt
  cases hget : (declaredRooms lines).get? fi with
  | none => rfl
  | some r =>
    have hmem := getSomeMem _ _ _ hget
    unfold declaredRooms at hmem
    obtain ⟨l, _, hfl⟩ := List.mem_filterMap.mp hmem
    by_cases hr : isRoomLine l
    · rw [if_pos hr] at hfl
      cases hs : sscanfRoom l with
      | none => rw [hs] at hfl; cases hfl
      | some p =>
        rw [hs] at hfl
        have hr2 : mkRoom p.1 p.2 = r := by simpa using hfl
        rw [← hr2]
        exact mkRoom_exit p.1 p.2 d
    · rw [if_neg hr] at hfl
      cases hfl

theorem worldOf_exit (lines : List Line) (fi : Nat) (d : Direction)
    (hfi : fi < (declaredRooms lines).length) :
    roomExit (worldOf lines) fi d = lastTarget (resolvedTriples lines) fi d := by
  unfold roomExit worldOf
  rw [exitAt_applyLinks _ _ _ _ hfi]
  cases h : lastTarget (resolvedTriples lines) fi d with
  | some t => rfl
  | none => exact declaredRooms_all_none lines fi d

theorem load_world_some (lines : List Line) (g : GameState) (h : load_world lines = some g) :
    g.rooms.map Room.id = declaredIds lines ∧ g.rooms.length ≤ MAX_ROOMS ∧
      (∀ l ∈ lines, isRoomLine l = true → (sscanfRoom l).isSome = true) := by
  unfold load_world at h
  cases hp1 : passRooms lines initialState with
  | none => rw [hp1] at h; cases h
  | some g1 =>
    rw [hp1] at h
    obtain ⟨he, hall⟩ := passRooms_some lines initialState g1 hp1
    obtain ⟨hi, _, _, _⟩ := passLinks_some_state lines g1 g h
    have hg1ids : g1.rooms.map Room.id = declaredIds lines := by
      rw [he]
      simp [initialState, declaredIds]
    refine ⟨by rw [hi, hg1ids], ?_, hall⟩
    have hlen : g.rooms.length = g1.rooms.length := by
      have hmap := congrArg List.length hi
      simpa using hmap
    rcases passRooms_bound lines initialState g1 hp1 with hle | heq
    · rw [hlen]; exact hle
    · rw [hlen, heq]
      simp [initialState, MAX_ROOMS]

-- ## strToDir, triples and agreement lemmas

theorem strToDir_some (a : List Char) (d : Direction) (h : strToDir a = some d) :
    a = direction_code d := by
  unfold strToDir at h
  split_ifs at h with h1 h2 h3 h4
  · cases h; exact h1
  · cases h; exact h2
  · cases h; exact h3
  · cases h; exact h4

theorem linkTriples_mem (lines : List Line) (l : Line) (tr : Int × List Char × Int)
    (hm : l ∈ lines) (hl : isLinkLine l = true) (hs : sscanfLink l = some tr) :
    tr ∈ linkTriples lines := by
  unfold linkTriples
  exact List.mem_filterMap.mpr ⟨l, hm, by rw [if_pos hl]; exact hs⟩

theorem linkTriples_src (lines : List Line) (tr : Int × List Char × Int)
    (hm : tr ∈ linkTriples lines) :
    ∃ l ∈ lines, isLinkLine l = true ∧ sscanfLink l = some tr := by
  unfold linkTriples at hm
  obtain ⟨l, hl, hf⟩ := List.mem_filterMap.mp hm
  by_cases hr : isLinkLine l
  · rw [if_pos hr] at hf
    exact ⟨l, hl, hr, hf⟩
  · rw [if_neg hr] at hf
    cases hf

theorem resolveTriple_some (ids : List Int) (tr : Int × List Char × Int)
    (rtr : Nat × Direction × Nat) (h : resolveTriple ids tr = some rtr) :
    idFind ids tr.1 = some rtr.1 ∧ strToDir tr.2.1 = some rtr.2.1 ∧
      idFind ids tr.2.2 = some rtr.2.2 := by
  unfold resolveTriple at h
  cases hf : idFind ids tr.1 with
  | none => rw [hf] at h; cases h
  | some fi =>
    rw [hf] at h
    cases hd : strToDir tr.2.1 with
    | none => rw [hd] at h; cases h
    | some d =>
      rw [hd] at h
      cases ht : idFind ids tr.2.2 with
      | none => rw [ht] at h; cases h
      | some ti =>
        rw [ht] at h
        injection h with h5
        subst h5
        exact ⟨rfl, rfl, rfl⟩

theorem linkAgrees_spec (f t : Int) (ds : List Char) (l : Line) (tr : Int × List Char × Int)
    (h : linkAgrees f ds t l = true) (hs : sscanfLink l = some tr)
    (h1 : tr.1 = f) (h2 : tr.2.1 = ds) : tr.2.2 = t := by
  obtain ⟨tf, tds, tt⟩ := tr
  unfold linkAgrees at h
  rw [hs] at h
  simp only at h1 h2
  subst h1
  subst h2
  simpa using h

theorem linkNotSame_spec (f : Int) (ds : List Char) (l : Line) (tr : Int × List Char × Int)
    (h : linkNotSame f ds l = true) (hs : sscanfLink l = some tr) :
    ¬(tr.1 = f ∧ tr.2.1 = ds) := by
  obtain ⟨tf, tds, tt⟩ := tr
  unfold linkNotSame at h
  rw [hs] at h
  rintro ⟨e1, e2⟩
  simp only at e1 e2
  subst e1
  subst e2
  simp at h

theorem find_worldOf (lines : List Line) (x : Int) :
    find_room_by_id (worldOf lines).rooms x = idFind (declaredIds lines) x := by
  rw [find_eq_idFind, worldOf_ids]

theorem resolved_agree (lines : List Line) (f t : Int) (ds : List Char) (d : Direction)
    (fi ti : Nat)
    (hf : idFind (declaredIds lines) f = some fi)
    (ht : idFind (declaredIds lines) t = some ti)
    (hd : strToDir ds = some d)
    (hagree : ∀ l ∈ lines, isLinkLine l = true → linkAgrees f ds t l = true) :
    ∀ rtr ∈ resolvedTriples lines, rtr.1 = fi → rtr.2.1 = d → rtr.2.2 = ti := by
  intro rtr hm h1 h2
  unfold resolvedTriples at hm
  obtain ⟨tr, hmt, hres⟩ := List.mem_filterMap.mp hm
  obtain ⟨hrf, hrd, hrt⟩ := resolveTriple_some _ _ _ hres
  obtain ⟨l, hl, hll, hsl⟩ := linkTriples_src lines tr hmt
  have e1 : tr.1 = f := by
    have g1 := idFind_get _ _ _ (h1 ▸ hrf)
    have g2 := idFind_get _ _ _ hf
    exact Option.some.inj (g1.symm.trans g2)
  have e2 : tr.2.1 = ds := by
    have s1 := strToDir_some _ _ (h2 ▸ hrd)
    have s2 := strToDir_some _ _ hd
    rw [s1, s2]
  have e3 : tr.2.2 = t := linkAgrees_spec f t ds l tr (hagree l hl hll) hsl e1 e2
  have h4 : idFind (declaredIds lines) t = some rtr.2.2 := by
    rw [← e3]
    exact hrt
  rw [ht] at h4
  exact (Option.some.inj h4).symm

-- ## Transcript and handler helper lemmas

theorem mem_uiLogList_self (l : List (List Char)) (m : List Char) : m ∈ uiLogList l m := by
  unfold uiLogList
  simp

theorem mem_uiLogList_snoc (l : List (List Char)) (m m2 : List Char) :
    m ∈ uiLogList (uiLogList l m) m2 := by
  unfold uiLogList
  by_cases h2 : MAX_LOG_MESSAGES ≤ ((if MAX_LOG_MESSAGES ≤ l.length then l.drop 1 else l) ++ [m]).length
  · rw [if_pos h2]
    cases hA : (if MAX_LOG_MESSAGES ≤ l.length then l.drop 1 else l) with
    | nil =>
      rw [hA] at h2
      simp [MAX_LOG_MESSAGES] at h2
    | cons a A2 => simp
  · rw [if_neg h2]
    simp

theorem handle_look_fields (g : GameState) (a : Option Line) :
    (handle_look g a).player = g.player ∧
      (handle_look g a).gameShouldClose = g.gameShouldClose := by
  unfold handle_look
  cases g.player.bind (fun i => g.rooms.get? i) with
  | none => exact ⟨rfl, rfl⟩
  | some room =>
    dsimp only
    split
    · exact ⟨rfl, rfl⟩
    · exact ⟨rfl, rfl⟩

theorem handle_look_mem_desc (g : GameState) (i : Nat) (room : Room)
    (hp : g.player = some i) (hr : g.rooms.get? i = some room) :
    room.description ∈ (handle_look g none).logMessages := by
  unfold handle_look
  rw [hp]
  simp only [Option.some_bind, hr]
  split
  · exact mem_uiLogList_snoc g.logMessages room.description msgNoExits
  · exact mem_uiLogList_snoc g.logMessages room.description _

theorem game_loop_flagged (g : GameState) (ins : List Line) (h : g.gameShouldClose = true) :
    game_loop g ins = LoopResult.exited g ins := by
  cases ins with
  | nil => unfold game_loop; rw [h]; rfl
  | cons l rest => unfold game_loop; rw [h]; rfl

-- ## Claim theorems

/-- C3: `load_world` returns no world (NULL) whenever the map contains a
room-declaration line (a line beginning with `room`) that does not parse,
or a link line (a line beginning with `link`) that does not parse, uses a
direction code outside n/s/e/w, or references a from-id or to-id for which
no room is declared (`linkOk` over the ids declared by the parsing room
lines is false exactly in those three cases). -/
theorem C3_load_fails (lines : List Line)
    (h : (∃ l ∈ lines, isRoomLine l = true ∧ sscanfRoom l = none) ∨
         (∃ l ∈ lines, isLinkLine l = true ∧ linkOk (declaredIds lines) l = false)) :
    load_world lines = none := by
  unfold load_world
  rcases h with hbad | hbad
  · rw [passRooms_bad lines initialState hbad]
  · cases hp1 : passRooms lines initialState with
    | none => rfl
    | some g1 =>
      obtain ⟨he, _⟩ := passRooms_some lines initialState g1 hp1
      have hids : g1.rooms.map Room.id = declaredIds lines := by
        rw [he]
        simp [initialState, declaredIds]
      show passLinks lines g1 = none
      exact passLinks_bad lines g1 (declaredIds lines) hids hbad

/-- C3 witness: a map with a link to the undeclared room id 5 fails to load. -/
theorem C3_load_fails_witness : load_world mapBadLink = none :=
  C3_load_fails mapBadLink (Or.inr (by decide))

/-- C9: the loader has a fixed capacity of `MAX_ROOMS` (100) rooms: a map
with more than 100 room-declaration lines always fails to load (the 101st
`parse_room` hits the capacity guard, or an earlier line already failed),
and every successfully loaded world has at most 100 rooms. -/
theorem C9_room_capacity (lines : List Line) :
    (MAX_ROOMS < countRoomLines lines → load_world lines = none) ∧
      (∀ g, load_world lines = some g → g.rooms.length ≤ MAX_ROOMS) := by
  constructor
  · intro hcount
    cases hl : load_world lines with
    | none => rfl
    | some g =>
      exfalso
      obtain ⟨hids, hlen, hall⟩ := load_world_some lines g hl
      have hdl : (declaredRooms lines).length = countRoomLines lines :=
        declaredRooms_count lines hall
      have hglen : g.rooms.length = (declaredRooms lines).length := by
        have h1 := congrArg List.length hids
        simpa [declaredIds] using h1
      rw [hglen, hdl] at hlen
      exact absurd hlen (by omega)
  · intro g hl
    exact (load_world_some lines g hl).2.1

/-- C9 witness: 101 room lines fail to load; the good 2-room map loads a
world with at most 100 rooms. -/
theorem C9_room_capacity_witness :
    load_world mapHuge = none ∧ (worldOf mapGood).rooms.length ≤ MAX_ROOMS := by
  constructor
  · exact (C9_room_capacity mapHuge).1 (by decide)
  · exact (C9_room_capacity mapGood).2 (worldOf mapGood) rfl

/-- C2 counterexample: `parse_room` never checks for duplicate ids, so the
map declaring `room 7 "First"` and `room 7 "Second"` loads successfully,
the loaded world has two rooms with id 7 (ids are not unique), and
`find_room_by_id` on the id of the second room returns the first room
(index 0), not the second room itself. -/
theorem C2_find_room_counterexample :
    load_world mapDupIds = some (worldOf mapDupIds) ∧
      ¬ ((worldOf mapDupIds).rooms.map Room.id).Nodup ∧
      (worldOf mapDupIds).rooms.get? 1 = some (mkRoom 7 (( "Second" ).data)) ∧
      find_room_by_id (worldOf mapDupIds).rooms 7 = some 0 := by
  exact ⟨rfl, by decide, rfl, rfl⟩

/-- C2 amended: after every successful load of a map whose room lines
declare pairwise distinct ids, the ids of the loaded rooms are unique, and
`find_room_by_id` applied to the id of the room stored at index `i`
returns index `i` (the room itself). -/
theorem C2_find_room_amended (lines : List Line) (g : GameState)
    (hload : load_world lines = some g) (hnd : (declaredIds lines).Nodup) :
    (g.rooms.map Room.id).Nodup ∧
      ∀ i r, g.rooms.get? i = some r → find_room_by_id g.rooms r.id = some i := by
  obtain ⟨hids, _, _⟩ := load_world_some lines g hload
  constructor
  · rw [hids]
    exact hnd
  · intro i r hget
    rw [find_eq_idFind]
    have hmap : (g.rooms.map Room.id).get? i = some r.id := by
      rw [getMap, hget]
      rfl
    exact idFind_nodup (g.rooms.map Room.id) i r.id (by rw [hids]; exact hnd) hmap

/-- C2 amended witness: in the loaded good map, looking up the id of the
room at index 1 returns index 1, and ids are unique. -/
theorem C2_find_room_amended_witness :
    find_room_by_id (worldOf mapGood).rooms (mkRoom 1 (( "Cavern" ).data)).id = some 1 ∧
      ((worldOf mapGood).rooms.map Room.id).Nodup := by
  have h := C2_find_room_amended mapGood (worldOf mapGood) rfl (by decide)
  exact ⟨h.2 1 (mkRoom 1 (( "Cavern" ).data)) rfl, h.1⟩

/-- C7: the transcript log never exceeds `MAX_LOG_MESSAGES` (10) entries:
appending to a log of at most 10 entries keeps it at most 10; when the log
already holds exactly 10 entries, exactly the oldest (front) entry is
evicted before the new message is appended at the back; when it holds
fewer, nothing is evicted. -/
theorem C7_log_bounded (g : GameState) (m : List Char)
    (h : g.logMessages.length ≤ MAX_LOG_MESSAGES) :
    (ui_log g m).logMessages.length ≤ MAX_LOG_MESSAGES ∧
      (g.logMessages.length = MAX_LOG_MESSAGES →
        (ui_log g m).logMessages = g.logMessages.drop 1 ++ [m]) ∧
      (g.logMessages.length < MAX_LOG_MESSAGES →
        (ui_log g m).logMessages = g.logMessages ++ [m]) := by
  unfold ui_log uiLogList MAX_LOG_MESSAGES
  unfold MAX_LOG_MESSAGES at h
  refine ⟨?_, ?_, ?_⟩
  · by_cases hc : 10 ≤ g.logMessages.length
    · rw [if_pos hc]
      simp only [List.length_append, List.length_drop, List.length_cons, List.length_nil]
      omega
    · rw [if_neg hc]
      simp only [List.length_append, List.length_cons, List.length_nil]
      omega
  · intro he
    rw [if_pos (by omega)]
  · intro hlt
    rw [if_neg (by omega)]

/-- C7 witness: appending to a full 10-entry log keeps 10 entries and
evicts exactly the front entry. -/
theorem C7_log_bounded_witness :
    (ui_log fullLogState (( "new" ).data)).logMessages.length ≤ MAX_LOG_MESSAGES ∧
      (ui_log fullLogState (( "new" ).data)).logMessages =
        fullLogState.logMessages.drop 1 ++ [( "new" ).data] := by
  have h := C7_log_bounded fullLogState (( "new" ).data) (by decide)
  exact ⟨h.1, h.2.1 (by decide)⟩

/-- C8: processing a link line `(from, dir, to)` sets only the exit of the
from-room in direction `dir` (to the to-room); every other exit slot of the
from-room, every exit slot of every other room (the to-room included, in
particular its reverse direction), and the rest of the game state are left
unchanged. -/
theorem C8_link_frame (line : Line) (g : GameState) (fromId toId : Int) (ds : List Char)
    (d : Direction) (fi ti : Nat)
    (hs : sscanfLink line = some (fromId, ds, toId))
    (hf : find_room_by_id g.rooms fromId = some fi)
    (ht : find_room_by_id g.rooms toId = some ti)
    (hd : strToDir ds = some d) :
    parse_link line g = some (linkApply g fi d ti) ∧
      roomExit (linkApply g fi d ti) fi d = some ti ∧
      (∀ d2, d2 ≠ d → roomExit (linkApply g fi d ti) fi d2 = roomExit g fi d2) ∧
      (∀ j, j ≠ fi → (linkApply g fi d ti).rooms.get? j = g.rooms.get? j) ∧
      (linkApply g fi d ti).rooms.map Room.id = g.rooms.map Room.id ∧
      (linkApply g fi d ti).player = g.player ∧
      (linkApply g fi d ti).gameShouldClose = g.gameShouldClose ∧
      (linkApply g fi d ti).logMessages = g.logMessages := by
  have hfi_lt : fi < g.rooms.length := by
    rw [find_eq_idFind] at hf
    have h1 := idFind_lt _ _ _ hf
    simpa using h1
  refine ⟨?_, ?_, ?_, ?_, applyLink1_ids g.rooms (fi, d, ti), rfl, rfl, rfl⟩
  · refine parse_link_ok line g fromId toId ds d fi ti hs ?_ ?_ hd
    · rw [← find_eq_idFind]
      exact hf
    · rw [← find_eq_idFind]
      exact ht
  · show exitAt (applyLink1 g.rooms (fi, d, ti)) fi d = some ti
    rw [exitAt_applyLink1 g.rooms fi fi ti d d hfi_lt]
    simp
  · intro d2 hd2
    show exitAt (applyLink1 g.rooms (fi, d, ti)) fi d2 = exitAt g.rooms fi d2
    rw [exitAt_applyLink1 g.rooms fi fi ti d d2 hfi_lt]
    rw [if_neg (fun hc => hd2 hc.2.symm)]
  · intro j hj
    show (applyLink1 g.rooms (fi, d, ti)).get? j = g.rooms.get? j
    simp only [applyLink1]
    cases hget : g.rooms.get? fi with
    | none => rfl
    | some r => exact getSetOther g.rooms fi j _ (fun hc => hj hc.symm)

/-- C8 witness: in the demo session, `link 0 n 1` sets exactly the north
exit of room 0; room 1 and the south slot of room 0 are unchanged. -/
theorem C8_link_frame_witness :
    parse_link (( "link 0 n 1" ).data) demoState = some (linkApply demoState 0 Direction.north 1) ∧
      roomExit (linkApply demoState 0 Direction.north 1) 0 Direction.north = some 1 ∧
      (linkApply demoState 0 Direction.north 1).rooms.get? 1 = demoState.rooms.get? 1 ∧
      roomExit (linkApply demoState 0 Direction.north 1) 0 Direction.south =
        roomExit demoState 0 Direction.south := by
  have h := C8_link_frame (( "link 0 n 1" ).data) demoState 0 1 (( "n" ).data)
    Direction.north 0 1 rfl rfl rfl rfl
  exact ⟨h.1, h.2.1, h.2.2.2.1 1 (by decide), h.2.2.1 Direction.south (by decide)⟩

theorem handle_go_some (g : GameState) (arg : List Char) :
    handle_go g (some arg) =
      match go_direction arg with
      | none => ui_log g msgNotValidDir
      | some dir =>
        match g.player.bind (fun i => g.rooms.get? i) with
        | none => g
        | some room =>
          match room.exit dir with
          | some nextIdx => handle_look { g with player := some nextIdx } none
          | none => ui_log g msgCantGo := rfl

/-- C6: a `go` that does not move — no argument, an argument that is not a
valid direction token, or a valid direction with no exit from the current
room — leaves the player's current room unchanged, leaves the termination
flag unchanged, and appends exactly the corresponding feedback message
(`Go where?`, `That's not a valid direction.`, `You can't go that way.`)
to the transcript. -/
theorem C6_go_failures (g : GameState) (arg : List Char) :
    ((handle_go g none).player = g.player ∧
      (handle_go g none).gameShouldClose = g.gameShouldClose ∧
      (handle_go g none).logMessages = uiLogList g.logMessages msgGoWhere) ∧
    (go_direction arg = none →
      (handle_go g (some arg)).player = g.player ∧
      (handle_go g (some arg)).gameShouldClose = g.gameShouldClose ∧
      (handle_go g (some arg)).logMessages = uiLogList g.logMessages msgNotValidDir) ∧
    (∀ d pi room, go_direction arg = some d → g.player = some pi →
      g.rooms.get? pi = some room → room.exit d = none →
      (handle_go g (some arg)).player = g.player ∧
      (handle_go g (some arg)).gameShouldClose = g.gameShouldClose ∧
      (handle_go g (some arg)).logMessages = uiLogList g.logMessages msgCantGo) := by
  refine ⟨⟨rfl, rfl, rfl⟩, ?_, ?_⟩
  · intro ha
    have h1 : handle_go g (some arg) = ui_log g msgNotValidDir := by
      rw [handle_go_some, ha]
    rw [h1]
    exact ⟨rfl, rfl, rfl⟩
  · intro d pi room ha hp hr he
    have h1 : handle_go g (some arg) = ui_log g msgCantGo := by
      rw [handle_go_some, ha, hp]
      simp only [Option.some_bind, hr, he]
    rw [h1]
    exact ⟨rfl, rfl, rfl⟩

/-- C6 witness: in the demo session, `go` with no argument, `go x`, and
`go e` (no east exit) each leave the player and the flag unchanged and log
exactly the corresponding message. -/
theorem C6_go_failures_witness :
    (handle_go demoState none).player = demoState.player ∧
      (handle_go demoState none).logMessages = uiLogList demoState.logMessages msgGoWhere ∧
      (handle_go demoState (some (( "x" ).data))).logMessages =
        uiLogList demoState.logMessages msgNotValidDir ∧
      (handle_go demoState (some (( "e" ).data))).player = demoState.player ∧
      (handle_go demoState (some (( "e" ).data))).gameShouldClose = demoState.gameShouldClose ∧
      (handle_go demoState (some (( "e" ).data))).logMessages =
        uiLogList demoState.logMessages msgCantGo := by
  have h0 := (C6_go_failures demoState (( "x" ).data)).1
  have h1 := (C6_go_failures demoState (( "x" ).data)).2.1 rfl
  have h2 := (C6_go_failures demoState (( "e" ).data)).2.2 Direction.east 0 demoRoomA rfl rfl rfl rfl
  exact ⟨h0.1, h0.2.2, h1.2.2, h2.1, h2.2.1, h2.2.2⟩

/-- C5: a `go` whose argument names a direction in which the current room
has an exit updates the player's current-room reference to that exit's
target and then performs a `look` automatically, so the destination room's
description is appended to the transcript. -/
theorem C5_go_moves (g : GameState) (pi ti : Nat) (room target : Room)
    (arg : List Char) (d : Direction)
    (hp : g.player = some pi) (hr : g.rooms.get? pi = some room)
    (ha : go_direction arg = some d) (he : room.exit d = some ti)
    (ht : g.rooms.get? ti = some target) :
    handle_go g (some arg) = handle_look { g with player := some ti } none ∧
      (handle_go g (some arg)).player = some ti ∧
      target.description ∈ (handle_go g (some arg)).logMessages := by
  have hmain : handle_go g (some arg) = handle_look { g with player := some ti } none := by
    rw [handle_go_some, ha, hp]
    simp only [Option.some_bind, hr, he]
  refine ⟨hmain, ?_, ?_⟩
  · rw [hmain, (handle_look_fields { g with player := some ti } none).1]
  · rw [hmain]
    exact handle_look_mem_desc { g with player := some ti } ti target rfl ht

/-- C5 witness: `go north` from room 0 of the demo session moves the
player to room 1 and the transcript gains room 1's description. -/
theorem C5_go_moves_witness :
    (handle_go demoState (some (( "north" ).data))).player = some 1 ∧
      demoRoomB.description ∈ (handle_go demoState (some (( "north" ).data))).logMessages := by
  have h := C5_go_moves demoState 0 1 demoRoomA demoRoomB (( "north" ).data)
    Direction.north rfl rfl rfl rfl rfl
  exact ⟨h.2.1, h.2.2⟩

/-- C4 counterexample: the game loop's only exit condition is the
`game_should_close` flag — there is no end-of-input check.  With the flag
clear and the input stream exhausted, the loop does not stop: it blocks in
`ui_get_input` waiting for another line (`LoopResult.awaiting`), so
end-of-input does not act as quit as the claim states. -/
theorem C4_loop_counterexample :
    demoState.gameShouldClose = false ∧
      game_loop demoState [] = LoopResult.awaiting demoState ∧
      (game_loop demoState []).exitedFlag = false :=
  ⟨rfl, rfl, rfl⟩

/-- C4 amended: dispatching `quit` or `exit` sets the termination flag and
the loop stops at the next iteration boundary, returning every remaining
input line unread (no further command is dispatched); but when the input
is exhausted with the flag still clear, the loop does not terminate — it
stays blocked waiting for input, because the source checks no end-of-input
condition. -/
theorem C4_quit_stops_loop (g : GameState) (rest : List Line)
    (h : g.gameShouldClose = false) :
    game_loop g ((( "quit" ).data) :: rest) =
      LoopResult.exited { g with gameShouldClose := true } rest ∧
    game_loop g ((( "exit" ).data) :: rest) =
      LoopResult.exited { g with gameShouldClose := true } rest ∧
    game_loop g [] = LoopResult.awaiting g := by
  have hq : parse_and_execute_command g (( "quit" ).data) = { g with gameShouldClose := true } := rfl
  have hx : parse_and_execute_command g (( "exit" ).data) = { g with gameShouldClose := true } := rfl
  refine ⟨?_, ?_, ?_⟩
  · show (if g.gameShouldClose then LoopResult.exited g ((( "quit" ).data) :: rest)
      else game_loop (parse_and_execute_command g (( "quit" ).data)) rest) = _
    rw [h, if_neg (by simp), hq]
    exact game_loop_flagged _ rest rfl
  · show (if g.gameShouldClose then LoopResult.exited g ((( "exit" ).data) :: rest)
      else game_loop (parse_and_execute_command g (( "exit" ).data)) rest) = _
    rw [h, if_neg (by simp), hx]
    exact game_loop_flagged _ rest rfl
  · unfold game_loop
    rw [h]
    rfl

/-- C4 amended witness: `quit` stops the demo session at the next
iteration boundary with the rest of the input unread; with no input and no
quit, the loop is still awaiting input. -/
theorem C4_quit_stops_loop_witness :
    game_loop demoState ((( "quit" ).data) :: [( "look" ).data]) =
      LoopResult.exited { demoState with gameShouldClose := true } [( "look" ).data] ∧
      game_loop demoState [] = LoopResult.awaiting demoState := by
  have h := C4_quit_stops_loop demoState [( "look" ).data] rfl
  exact ⟨h.1, (C4_quit_stops_loop demoState [] rfl).2.2⟩

theorem linkTriples_append (A B : List Line) :
    linkTriples (A ++ B) = linkTriples A ++ linkTriples B := by
  unfold linkTriples
  rw [List.filterMap_append]

theorem linkTriples_cons_link (l : Line) (B : List Line) (tr : Int × List Char × Int)
    (hl : isLinkLine l = true) (hs : sscanfLink l = some tr) :
    linkTriples (l :: B) = tr :: linkTriples B := by
  simp only [linkTriples, List.filterMap_cons, hl, hs]
  simp [linkTriples]

/-- C1: for a well-formed map in which a link line references a room whose
declaration line appears later in the file (and every link line for that
from-room and direction agrees on the target), `load_world` succeeds, and
after the load the exit of the from-room in the link's direction is the
declared to-room: the two-pass load makes declaration order irrelevant. -/
theorem C1_forward_link (lines pre mid post : List Line) (llink lroom : Line)
    (fromId toId : Int) (ds dsc : List Char) (d : Direction)
    (hsplit : lines = pre ++ llink :: mid ++ lroom :: post)
    (hwf : WellFormedMap lines)
    (hlink1 : isLinkLine llink = true) (hlink2 : sscanfLink llink = some (fromId, ds, toId))
    (hroom1 : isRoomLine lroom = true) (hroom2 : sscanfRoom lroom = some (toId, dsc))
    (hdir : strToDir ds = some d)
    (hagree : ∀ l ∈ lines, isLinkLine l = true → linkAgrees fromId ds toId l = true) :
    load_world lines = some (worldOf lines) ∧
      ∀ fi ti, find_room_by_id (worldOf lines).rooms fromId = some fi →
        find_room_by_id (worldOf lines).rooms toId = some ti →
        roomExit (worldOf lines) fi d = some ti := by
  refine ⟨load_world_wf lines hwf, ?_⟩
  intro fi ti hfi hti
  rw [find_worldOf] at hfi hti
  have hfi_lt : fi < (declaredRooms lines).length := by
    have h1 := idFind_lt _ _ _ hfi
    simpa [declaredIds] using h1
  rw [worldOf_exit lines fi d hfi_lt]
  have hmem_line : llink ∈ lines := by
    rw [hsplit]
    simp
  have htr_mem : (fromId, ds, toId) ∈ linkTriples lines :=
    linkTriples_mem lines llink _ hmem_line hlink1 hlink2
  have hres : resolveTriple (declaredIds lines) (fromId, ds, toId) = some (fi, d, ti) := by
    simp only [resolveTriple]
    rw [hfi, hdir, hti]
  have hrmem : (fi, d, ti) ∈ resolvedTriples lines := by
    unfold resolvedTriples
    exact List.mem_filterMap.mpr ⟨(fromId, ds, toId), htr_mem, hres⟩
  exact lastTarget_agree (resolvedTriples lines) fi d ti
    (resolved_agree lines fromId toId ds d fi ti hfi hti hdir hagree)
    ⟨(fi, d, ti), hrmem, rfl, rfl⟩

/-- C1 witness: in `mapForward` the link line comes first and references
room 1, declared on the last line; the load succeeds and room 0's north
exit is room 1. -/
theorem C1_forward_link_witness :
    load_world mapForward = some (worldOf mapForward) ∧
      roomExit (worldOf mapForward) 0 Direction.north = some 1 := by
  have h := C1_forward_link mapForward [] [( "room 0 \"Library\"" ).data] []
    (( "link 0 n 1" ).data) (( "room 1 \"Cavern\"" ).data) 0 1 (( "n" ).data)
    (( "Cavern" ).data) Direction.north rfl ⟨by decide, by decide, by decide⟩
    rfl rfl rfl rfl rfl (by decide)
  exact ⟨h.1, h.2 0 1 rfl rfl⟩

/-- C10: a well-formed map may declare several link lines with the same
from-room and direction; the load still succeeds and the from-room's exit
in that direction is the target of the last such link line in file order —
earlier duplicates are silently overwritten. -/
theorem C10_duplicate_links (lines pre mid post : List Line) (l1 l2 : Line)
    (f t1 t2 : Int) (ds : List Char) (d : Direction)
    (hsplit : lines = pre ++ l1 :: mid ++ l2 :: post)
    (hwf : WellFormedMap lines)
    (h11 : isLinkLine l1 = true) (h12 : sscanfLink l1 = some (f, ds, t1))
    (h21 : isLinkLine l2 = true) (h22 : sscanfLink l2 = some (f, ds, t2))
    (hdir : strToDir ds = some d)
    (hpost : ∀ l ∈ post, isLinkLine l = true → linkNotSame f ds l = true) :
    load_world lines = some (worldOf lines) ∧
      ∀ fi ti2, find_room_by_id (worldOf lines).rooms f = some fi →
        find_room_by_id (worldOf lines).rooms t2 = some ti2 →
        roomExit (worldOf lines) fi d = some ti2 := by
  refine ⟨load_world_wf lines hwf, ?_⟩
  intro fi ti2 hfi hti2
  rw [find_worldOf] at hfi hti2
  have hfi_lt : fi < (declaredRooms lines).length := by
    have h1 := idFind_lt _ _ _ hfi
    simpa [declaredIds] using h1
  rw [worldOf_exit lines fi d hfi_lt]
  have hl1mem : l1 ∈ lines := by
    rw [hsplit]
    simp
  have hok1 : linkOk (declaredIds lines) l1 = true := hwf.2.2 l1 hl1mem h11
  rw [linkOk_eq _ _ f t1 ds h12] at hok1
  have hex1 : ∃ ti1, idFind (declaredIds lines) t1 = some ti1 := by
    cases hx : idFind (declaredIds lines) t1 with
    | none => rw [hx, hdir, hfi] at hok1; simp at hok1
    | some v => exact ⟨v, rfl⟩
  obtain ⟨ti1, ht1⟩ := hex1
  have htr : linkTriples lines =
      linkTriples pre ++ (f, ds, t1) ::
        (linkTriples mid ++ (f, ds, t2) :: linkTriples post) := by
    rw [hsplit, linkTriples_append, linkTriples_append,
      linkTriples_cons_link l1 _ _ h11 h12, linkTriples_cons_link l2 _ _ h21 h22]
    simp [List.append_assoc]
  have hres1 : resolveTriple (declaredIds lines) (f, ds, t1) = some (fi, d, ti1) := by
    simp only [resolveTriple]
    rw [hfi, hdir, ht1]
  have hres2 : resolveTriple (declaredIds lines) (f, ds, t2) = some (fi, d, ti2) := by
    simp only [resolveTriple]
    rw [hfi, hdir, hti2]
  have hrt : resolvedTriples lines =
      (linkTriples pre).filterMap (resolveTriple (declaredIds lines)) ++
        (fi, d, ti1) :: ((linkTriples mid).filterMap (resolveTriple (declaredIds lines)) ++
          (fi, d, ti2) :: (linkTriples post).filterMap (resolveTriple (declaredIds lines))) := by
    unfold resolvedTriples
    rw [htr, List.filterMap_append, List.filterMap_cons, hres1,
      List.filterMap_append, List.filterMap_cons, hres2]
  rw [hrt]
  have hnone : lastTarget
      ((linkTriples post).filterMap (resolveTriple (declaredIds lines))) fi d = none := by
    apply lastTarget_none_of
    intro rtr hm hc
    obtain ⟨tr, hmt, hresX⟩ := List.mem_filterMap.mp hm
    obtain ⟨hrf, hrd, _⟩ := resolveTriple_some _ _ _ hresX
    obtain ⟨l, hl, hll, hsl⟩ := linkTriples_src post tr hmt
    have e1 : tr.1 = f := by
      have g1 := idFind_get _ _ _ (hc.1 ▸ hrf)
      have g2 := idFind_get _ _ _ hfi
      exact Option.some.inj (g1.symm.trans g2)
    have e2 : tr.2.1 = ds := by
      have s1 := strToDir_some _ _ (hc.2 ▸ hrd)
      have s2 := strToDir_some _ _ hdir
      rw [s1, s2]
    exact linkNotSame_spec f ds l tr (hpost l hl hll) hsl ⟨e1, e2⟩
  have hA : lastTarget ((fi, d, ti2) ::
      (linkTriples post).filterMap (resolveTriple (declaredIds lines))) fi d = some ti2 := by
    simp [lastTarget, hnone]
  have hB : lastTarget
      ((linkTriples mid).filterMap (resolveTriple (declaredIds lines)) ++
        (fi, d, ti2) :: (linkTriples post).filterMap (resolveTriple (declaredIds lines)))
      fi d = some ti2 := by
    rw [lastTarget_append, hA]
  have hC : lastTarget ((fi, d, ti1) ::
      ((linkTriples mid).filterMap (resolveTriple (declaredIds lines)) ++
        (fi, d, ti2) :: (linkTriples post).filterMap (resolveTriple (declaredIds lines))))
      fi d = some ti2 := by
    simp [lastTarget, hB]
  rw [lastTarget_append, hC]

/-- C10 witness: `mapDupLinks` declares `link 0 n 1` and then `link 0 n 2`;
the load succeeds and room 0's north exit is room 2 (index 2), the target
of the last link line. -/
theorem C10_duplicate_links_witness :
    load_world mapDupLinks = some (worldOf mapDupLinks) ∧
      roomExit (worldOf mapDupLinks) 0 Direction.north = some 2 := by
  have h := C10_duplicate_links mapDupLinks
    [( "room 0 \"Library\"" ).data, ( "room 1 \"Cavern\"" ).data, ( "room 2 \"Tunnel\"" ).data]
    [] [] (( "link 0 n 1" ).data) (( "link 0 n 2" ).data) 0 1 2 (( "n" ).data)
    Direction.north rfl ⟨by decide, by decide, by decide⟩ rfl rfl rfl rfl rfl
    (by decide)
  exact ⟨h.1, h.2 0 2 rfl rfl⟩
